import Mathlib

/-!
Verification of the speech2prompt desktop core against its specification.

Bytes are modelled as natural numbers (always < 256 when produced by the
code), byte strings as lists of naturals, and machine-integer overflow is
made explicit with modular arithmetic (u8 arithmetic modulo 256, the u16
little-endian length field modulo 65536).
-/

namespace S2P

/-! ## BLE constants (src/desktop/src/bluetooth/ble_constants.rs) -/

namespace flags

/-- First packet of message (bit 0x08). -/
def FIRST : Nat := 0x08

/-- Last packet of message (bit 0x04). -/
def LAST : Nat := 0x04

/-- Request acknowledgment (bit 0x02). -/
def ACK_REQ : Nat := 0x02

end flags

namespace config

/-- ATT protocol overhead (3 bytes). -/
def ATT_OVERHEAD : Nat := 3

/-- Packet header size for the first packet. -/
def HEADER_SIZE_FIRST : Nat := 4

/-- Packet header size for continuation packets. -/
def HEADER_SIZE_CONTINUATION : Nat := 2

/-- Effective payload size for a given MTU, from
`config::effective_payload_size`.  Rust usize subtraction panics on
underflow; the claims only use MTU at least 23 where no underflow occurs,
and Lean truncated subtraction agrees there. -/
def effective_payload_size (mtu : Nat) (is_first : Bool) : Nat :=
  mtu - ATT_OVERHEAD -
    (if is_first then HEADER_SIZE_FIRST else HEADER_SIZE_CONTINUATION)

end config

/-! ## Message reassembler (src/desktop/src/bluetooth/reassembler.rs) -/

/-- State of `MessageReassembler`. -/
structure MessageReassembler where
  buffer : List Nat
  expected_length : Nat
  expected_seq : Nat
  in_progress : Bool
  deriving Repr, DecidableEq

/-- Fresh reassembler, from `MessageReassembler::new`. -/
def MessageReassembler.new : MessageReassembler :=
  { buffer := [], expected_length := 0, expected_seq := 0, in_progress := false }

/-- Reset the reassembler state, from `MessageReassembler::reset`. -/
def MessageReassembler.reset (_r : MessageReassembler) : MessageReassembler :=
  { buffer := [], expected_length := 0, expected_seq := 0, in_progress := false }

/-- Tail of `process_packet` after the three-way branch: increment the
expected sequence number (u8 wrapping add), then handle a LAST packet by
emitting the buffer when its length matches the declared length and
resetting otherwise. -/
def MessageReassembler.finishPacket (r : MessageReassembler) (is_last : Bool) :
    MessageReassembler × Option (List Nat) :=
  let r1 : MessageReassembler := { r with expected_seq := (r.expected_seq + 1) % 256 }
  if is_last then
    let r2 : MessageReassembler := { r1 with in_progress := false }
    if r2.buffer.length = r2.expected_length then
      ({ r2 with buffer := [] }, some r2.buffer)
    else
      (r2.reset, none)
  else
    (r1, none)

/-- Process an incoming BLE packet, from `MessageReassembler::process_packet`.
Returns the updated state and the completed message, if any. -/
def MessageReassembler.process_packet (r : MessageReassembler) (packet : List Nat) :
    MessageReassembler × Option (List Nat) :=
  if packet.length < 2 then (r, none)
  else
    let flagsByte := packet.getD 0 0
    let seq := packet.getD 1 0
    let is_first := flagsByte &&& flags.FIRST ≠ 0
    let is_last := flagsByte &&& flags.LAST ≠ 0
    if is_first then
      if packet.length < 4 then (r, none)
      else
        let r1 : MessageReassembler :=
          { buffer := packet.drop 4
            expected_length := packet.getD 2 0 + 256 * packet.getD 3 0
            expected_seq := 0
            in_progress := true }
        r1.finishPacket is_last
    else if r.in_progress then
      if seq ≠ r.expected_seq then
        (r.reset, none)
      else
        let r1 : MessageReassembler := { r with buffer := r.buffer ++ packet.drop 2 }
        r1.finishPacket is_last
    else
      (r, none)

/-- Chunk size taken by the `chunk_message` loop at a given offset:
the remaining bytes capped by the effective payload size (the packet is
a first packet exactly when the offset is zero). -/
def chunk_size_at (data : List Nat) (mtu : Nat) (offset : Nat) : Nat :=
  min (data.length - offset) (config.effective_payload_size mtu (decide (offset = 0)))

/-- The packet built by one iteration of the `chunk_message` loop:
flags byte, sequence byte (u8), the 16-bit little-endian total length on
the first packet only, then the payload chunk. -/
def mkPacket (data : List Nat) (mtu : Nat) (offset seq : Nat) : List Nat :=
  [(if offset = 0 then flags.FIRST else 0) |||
     (if data.length ≤ offset + chunk_size_at data mtu offset then flags.LAST else 0),
   seq % 256] ++
    (if offset = 0 then
      [data.length % 65536 % 256, data.length % 65536 / 256] else []) ++
    (data.drop offset).take (chunk_size_at data mtu offset)

/-- Chunking loop of `chunk_message`: one iteration per produced packet.
The Rust loop advances `offset` by the chunk size each iteration; with
MTU at least 23 each chunk is nonempty, so `data.length` iterations of
fuel always suffice (the fuel-out branch is unreachable there). -/
def chunkLoop (data : List Nat) (mtu : Nat) : Nat → Nat → Nat → List (List Nat)
  | 0, _, _ => []
  | fuel + 1, offset, seq =>
    if offset < data.length then
      mkPacket data mtu offset seq ::
        chunkLoop data mtu fuel (offset + chunk_size_at data mtu offset) (seq + 1)
    else []

/-- Chunk a message into BLE packets, from `chunk_message`. -/
def chunk_message (data : List Nat) (mtu : Nat) : List (List Nat) :=
  if data.isEmpty then []
  else chunkLoop data mtu data.length 0 0

/-- Feed a list of packets through a reassembler in order, collecting all
completed messages. -/
def processAll (r : MessageReassembler) (packets : List (List Nat)) :
    MessageReassembler × List (List Nat) :=
  match packets with
  | [] => (r, [])
  | p :: ps =>
    let step := r.process_packet p
    let rest := processAll step.1 ps
    (rest.1, step.2.toList ++ rest.2)

/-! ### Round-trip lemmas (chunk then reassemble) -/

/-- Unfolding lemma: the chunk loop stops as soon as the offset reaches the
end of the data. -/
lemma chunkLoop_stop (data : List Nat) (mtu fuel offset seq : Nat)
    (h : ¬ offset < data.length) :
    chunkLoop data mtu fuel offset seq = [] := by
  cases fuel with
  | zero => rfl
  | succ fuel => rw [chunkLoop, if_neg h]

/-- Unfolding lemma: one iteration of the chunk loop while data remains and
fuel is positive. -/
lemma chunkLoop_step (data : List Nat) (mtu fuel offset seq : Nat)
    (h : offset < data.length) (hf : 0 < fuel) :
    chunkLoop data mtu fuel offset seq =
      mkPacket data mtu offset seq ::
        chunkLoop data mtu (fuel - 1) (offset + chunk_size_at data mtu offset)
          (seq + 1) := by
  cases fuel with
  | zero => omega
  | succ f => rw [chunkLoop, if_pos h]; rfl

/-- A continuation packet as built by the chunker, with the first-packet
conditionals discharged. -/
lemma mkPacket_cont (data : List Nat) (mtu offset seq : Nat) (h : offset ≠ 0) :
    mkPacket data mtu offset seq =
      (if data.length ≤ offset + chunk_size_at data mtu offset then flags.LAST else 0) ::
        seq % 256 :: (data.drop offset).take (chunk_size_at data mtu offset) := by
  rw [mkPacket, if_neg h, if_neg h]
  simp [Nat.zero_or]

/-- The first packet as built by the chunker, with the conditionals
discharged and the length field spelled out. -/
lemma mkPacket_first (data : List Nat) (mtu seq : Nat) :
    mkPacket data mtu 0 seq =
      (flags.FIRST ||| (if data.length ≤ chunk_size_at data mtu 0 then flags.LAST else 0)) ::
        seq % 256 :: data.length % 65536 % 256 :: data.length % 65536 / 256 ::
        data.take (chunk_size_at data mtu 0) := by
  rw [mkPacket, if_pos rfl, if_pos rfl]
  simp

/-- Processing a packet whose FIRST bit is clear while in progress with the
matching sequence number appends the payload to the buffer. -/
lemma process_packet_cont (fb : Nat) (buf payload : List Nat) (elen seq : Nat)
    (hfb : fb &&& flags.FIRST = 0) :
    MessageReassembler.process_packet
      { buffer := buf, expected_length := elen, expected_seq := seq % 256,
        in_progress := true }
      (fb :: seq % 256 :: payload) =
      MessageReassembler.finishPacket
        { buffer := buf ++ payload, expected_length := elen,
          expected_seq := seq % 256, in_progress := true }
        (decide (fb &&& flags.LAST ≠ 0)) := by
  have hlen : ¬ ((fb :: seq % 256 :: payload).length < 2) := by
    simp [List.length_cons]
  rw [MessageReassembler.process_packet, if_neg hlen]
  simp [hfb]

/-- Processing a packet whose FIRST bit is set restarts the buffer with the
packet's declared length and payload, from any prior state. -/
lemma process_packet_first (fb s lo hi : Nat) (payload : List Nat)
    (r : MessageReassembler) (hfb : fb &&& flags.FIRST ≠ 0) :
    r.process_packet (fb :: s :: lo :: hi :: payload) =
      MessageReassembler.finishPacket
        { buffer := payload, expected_length := lo + 256 * hi,
          expected_seq := 0, in_progress := true }
        (decide (fb &&& flags.LAST ≠ 0)) := by
  have hlen : ¬ ((fb :: s :: lo :: hi :: payload).length < 2) := by
    simp [List.length_cons]
  have hlen4 : ¬ ((fb :: s :: lo :: hi :: payload).length < 4) := by
    simp [List.length_cons]
  rw [MessageReassembler.process_packet, if_neg hlen]
  simp [hfb, hlen4]

/-- Packet-tail logic when the LAST bit is clear. -/
lemma finishPacket_not_last (r : MessageReassembler) :
    r.finishPacket false =
      ({ r with expected_seq := (r.expected_seq + 1) % 256 }, none) := by
  rw [MessageReassembler.finishPacket]
  simp

/-- Packet-tail logic when the LAST bit is set and the accumulated length
matches the declared length: the buffer is emitted. -/
lemma finishPacket_last_ok (r : MessageReassembler)
    (h : r.buffer.length = r.expected_length) :
    r.finishPacket true =
      ({ r with
          expected_seq := (r.expected_seq + 1) % 256,
          in_progress := false,
          buffer := [] }, some r.buffer) := by
  rw [MessageReassembler.finishPacket]
  simp [h]

/-- The continuation phase of the round trip: if the reassembler holds the
first `offset` bytes of `data`, expects `data.length` bytes in total and
the chunker's current sequence number, then feeding it the remaining
chunk-loop packets completes exactly the original message. -/
lemma processAll_chunkLoop_cont (data : List Nat) (mtu : Nat) (hmtu : 23 ≤ mtu) :
    ∀ fuel offset seq, 0 < offset → offset < data.length →
      data.length - offset ≤ fuel →
      (processAll
        { buffer := data.take offset, expected_length := data.length,
          expected_seq := seq % 256, in_progress := true }
        (chunkLoop data mtu fuel offset seq)).2 = [data] := by
  intro fuel
  induction fuel with
  | zero => intro offset seq _ h2 h3; omega
  | succ fuel ih =>
    intro offset seq h1 h2 h3
    have hfirst : offset ≠ 0 := by omega
    have heff : config.effective_payload_size mtu (decide (offset = 0)) = mtu - 5 := by
      simp only [config.effective_payload_size, config.ATT_OVERHEAD,
        config.HEADER_SIZE_CONTINUATION, hfirst, decide_False, Bool.false_eq_true,
        if_false]
      omega
    have hc : chunk_size_at data mtu offset = min (data.length - offset) (mtu - 5) := by
      rw [chunk_size_at, heff]
    have hcpos : 0 < chunk_size_at data mtu offset := by rw [hc]; omega
    have hcle : chunk_size_at data mtu offset ≤ data.length - offset := by
      rw [hc]; omega
    have hbuf : data.take offset ++ (data.drop offset).take (chunk_size_at data mtu offset) =
        data.take (offset + chunk_size_at data mtu offset) :=
      (List.take_add data offset (chunk_size_at data mtu offset)).symm
    rw [chunkLoop, if_pos h2, mkPacket_cont data mtu offset seq hfirst]
    by_cases hl : data.length ≤ offset + chunk_size_at data mtu offset
    · have hoc : offset + chunk_size_at data mtu offset = data.length := by omega
      rw [if_pos hl, processAll]
      rw [process_packet_cont flags.LAST (data.take offset) _ data.length seq
        (by decide)]
      have hdec : decide (flags.LAST &&& flags.LAST ≠ 0) = true := by decide
      rw [hdec, finishPacket_last_ok _ (by
        simp only [hbuf, hoc]
        simp)]
      rw [chunkLoop_stop data mtu fuel _ (seq + 1) (by omega)]
      rw [processAll]
      simp only [hbuf, hoc, List.take_length]
      rfl
    · rw [if_neg hl, processAll]
      rw [process_packet_cont 0 (data.take offset) _ data.length seq (by decide)]
      have hdec : decide ((0 : Nat) &&& flags.LAST ≠ 0) = false := by decide
      rw [hdec, finishPacket_not_last]
      have hseq : (seq % 256 + 1) % 256 = (seq + 1) % 256 := by omega
      simp only [hbuf, hseq, Option.toList_none, List.nil_append]
      exact ih (offset + chunk_size_at data mtu offset) (seq + 1)
        (by omega) (by omega) (by omega)

/-- Amended claim C1: chunking then reassembling returns exactly the
original message, for nonempty data of length at most 65535 (the u16
length field) and MTU at least 23. -/
theorem chunk_roundtrip (data : List Nat) (mtu : Nat) (hne : data ≠ [])
    (hlen : data.length ≤ 65535) (hmtu : 23 ≤ mtu) :
    (processAll MessageReassembler.new (chunk_message data mtu)).2 = [data] := by
  have hlpos : 0 < data.length := List.length_pos.mpr hne
  have heff : config.effective_payload_size mtu (decide ((0 : Nat) = 0)) = mtu - 7 := by
    simp only [config.effective_payload_size, config.ATT_OVERHEAD,
      config.HEADER_SIZE_FIRST, decide_True, if_true]
    omega
  have hc : chunk_size_at data mtu 0 = min data.length (mtu - 7) := by
    rw [chunk_size_at, Nat.sub_zero, heff]
  have hcpos : 0 < chunk_size_at data mtu 0 := by rw [hc]; omega
  have hcle : chunk_size_at data mtu 0 ≤ data.length := by rw [hc]; omega
  have hmod : data.length % 65536 = data.length := Nat.mod_eq_of_lt (by omega)
  have hlohi : data.length % 65536 % 256 + 256 * (data.length % 65536 / 256) =
      data.length := by
    rw [hmod]; exact Nat.mod_add_div data.length 256
  rw [chunk_message, if_neg (by simp [hne])]
  obtain ⟨n, hn⟩ : ∃ n, data.length = n + 1 := ⟨data.length - 1, by omega⟩
  rw [hn, chunkLoop, if_pos (by omega), mkPacket_first]
  by_cases hl : data.length ≤ chunk_size_at data mtu 0
  · have hceq : chunk_size_at data mtu 0 = data.length := by omega
    rw [if_pos hl, processAll]
    rw [process_packet_first _ _ _ _ _ _ (by decide)]
    have hdec : decide ((flags.FIRST ||| flags.LAST) &&& flags.LAST ≠ 0) = true := by
      decide
    rw [hdec, hlohi, finishPacket_last_ok _ (by
      simp only [hceq, List.take_length])]
    rw [chunkLoop_stop data mtu n _ (0 + 1) (by omega)]
    rw [processAll]
    simp only [hceq, List.take_length]
    rfl
  · rw [if_neg hl, processAll]
    rw [process_packet_first _ _ _ _ _ _ (by decide)]
    have hdec : decide ((flags.FIRST ||| 0) &&& flags.LAST ≠ 0) = false := by decide
    rw [hdec, hlohi, finishPacket_not_last]
    simp only [Option.toList_none, List.nil_append]
    have hmain := processAll_chunkLoop_cont data mtu hmtu n
      (0 + chunk_size_at data mtu 0) (0 + 1) (by omega) (by omega) (by omega)
    simpa using hmain

/-- Packet-tail logic when the LAST bit is set but the accumulated length
does not match the declared length: everything is reset. -/
lemma finishPacket_last_mismatch (r : MessageReassembler)
    (h : r.buffer.length ≠ r.expected_length) :
    r.finishPacket true = (MessageReassembler.new, none) := by
  rw [MessageReassembler.finishPacket]
  simp [h, MessageReassembler.reset, MessageReassembler.new]

/-- Claim C1, counterexample: for a 65536-byte message (nonempty, MTU well
above 23) the u16 length field wraps to 0, the reassembler's final length
check fails, and no message at all is reassembled. -/
theorem chunk_roundtrip_cex :
    List.replicate 65536 (0 : Nat) ≠ [] ∧ 23 ≤ 131072 ∧
    (processAll MessageReassembler.new
      (chunk_message (List.replicate 65536 (0 : Nat)) 131072)).2 = [] ∧
    (processAll MessageReassembler.new
      (chunk_message (List.replicate 65536 (0 : Nat)) 131072)).2 ≠
      [List.replicate 65536 (0 : Nat)] := by
  have hlen : (List.replicate 65536 (0 : Nat)).length = 65536 :=
    List.length_replicate 65536 0
  have hnil : List.replicate 65536 (0 : Nat) ≠ [] := by
    intro h
    rw [h, List.length_nil] at hlen
    exact absurd hlen (by omega)
  have hc : chunk_size_at (List.replicate 65536 (0 : Nat)) 131072 0 = 65536 := by
    rw [chunk_size_at, hlen]
    simp only [config.effective_payload_size, config.ATT_OVERHEAD,
      config.HEADER_SIZE_FIRST, decide_True, if_true]
    omega
  have hres : (processAll MessageReassembler.new
      (chunk_message (List.replicate 65536 (0 : Nat)) 131072)).2 = [] := by
    rw [chunk_message, if_neg (by rw [List.isEmpty_iff]; exact hnil)]
    rw [chunkLoop_step _ _ _ _ _ (by omega) (by omega)]
    rw [mkPacket_first, hc]
    rw [if_pos (by omega)]
    rw [chunkLoop_stop _ _ _ _ _ (by omega)]
    rw [processAll]
    rw [process_packet_first _ _ _ _ _ _ (by decide)]
    have hdec : decide ((flags.FIRST ||| flags.LAST) &&& flags.LAST ≠ 0) = true := by
      decide
    rw [hdec, finishPacket_last_mismatch _ (by
      rw [List.length_take, hlen]
      show (65536 ⊓ 65536 : Nat) ≠ 65536 % 65536 % 256 + 256 * (65536 % 65536 / 256)
      omega)]
    rfl
  exact ⟨hnil, by norm_num, hres, by rw [hres]; exact fun h => List.noConfusion h⟩

/-- Claim C1 witness: the amended round trip holds at a concrete input. -/
theorem chunk_roundtrip_witness :
    ([1, 2, 3] : List Nat) ≠ [] ∧ ([1, 2, 3] : List Nat).length ≤ 65535 ∧
    23 ≤ 23 ∧
    (processAll MessageReassembler.new (chunk_message [1, 2, 3] 23)).2 = [[1, 2, 3]] :=
  ⟨by decide, by decide, by decide,
    chunk_roundtrip [1, 2, 3] 23 (by decide) (by decide) (by decide)⟩

/-- Claim C2: once reassembly is in progress (after a valid FIRST packet),
a continuation packet with an unexpected sequence byte yields no output and
fully resets the reassembler, so any subsequent packet is handled exactly
as by a fresh reassembler. -/
theorem seq_error_resets (fp cp : List Nat) (r : MessageReassembler)
    (hr : (MessageReassembler.new.process_packet fp).1 = r)
    (hin : r.in_progress = true)
    (hlen : 2 ≤ cp.length)
    (hnf : cp.getD 0 0 &&& flags.FIRST = 0)
    (hs : cp.getD 1 0 ≠ r.expected_seq) :
    r.process_packet cp = (MessageReassembler.new, none) ∧
    ∀ q, ((r.process_packet cp).1).process_packet q =
      MessageReassembler.new.process_packet q := by
  have h1 : r.process_packet cp = (MessageReassembler.new, none) := by
    rw [List.getD_eq_getElem?_getD] at hnf hs
    rw [MessageReassembler.process_packet, if_neg (by omega)]
    simp [hnf, hin, hs, MessageReassembler.reset, MessageReassembler.new]
  exact ⟨h1, fun q => by rw [h1]⟩

/-- Claim C2 witness: a concrete run — valid FIRST declaring 10 bytes, then
a continuation with sequence byte 2 instead of the expected 1. -/
theorem seq_error_resets_witness :
    ((MessageReassembler.new.process_packet [8, 0, 10, 0, 1, 2, 3, 4, 5]).1 =
      { buffer := [1, 2, 3, 4, 5], expected_length := 10, expected_seq := 1,
        in_progress := true }) ∧
    ({ buffer := [1, 2, 3, 4, 5], expected_length := 10, expected_seq := 1,
        in_progress := true } : MessageReassembler).process_packet [4, 2, 9] =
      (MessageReassembler.new, none) :=
  ⟨by decide,
    (seq_error_resets [8, 0, 10, 0, 1, 2, 3, 4, 5] [4, 2, 9] _
      (by decide) (by decide) (by decide) (by decide) (by decide)).1⟩

/-- Claim C9: for data longer than 65535 bytes, the declared total length
that the reassembler would read from the FIRST packet (little-endian bytes
2 and 3) is the true length modulo 65536, which differs from the true
length. -/
theorem chunk_first_length_truncated (data : List Nat) (mtu : Nat)
    (hlen : 65535 < data.length) (hmtu : 23 ≤ mtu) :
    ((chunk_message data mtu).headD []).getD 2 0 +
        256 * ((chunk_message data mtu).headD []).getD 3 0 =
      data.length % 65536 ∧
    data.length % 65536 ≠ data.length := by
  constructor
  · rw [chunk_message, if_neg (by
      intro h
      rw [List.isEmpty_iff] at h
      rw [h, List.length_nil] at hlen
      exact absurd hlen (by omega))]
    rw [chunkLoop_step _ _ _ _ _ (by omega) (by omega), mkPacket_first]
    simp only [List.headD_cons, List.getD_cons_succ, List.getD_cons_zero]
    exact Nat.mod_add_div _ 256
  · omega

/-- Claim C9 witness: a concrete 65536-byte input whose declared length
field wraps to 0. -/
theorem chunk_first_length_truncated_witness :
    65535 < (List.replicate 65536 (0 : Nat)).length ∧
    ((chunk_message (List.replicate 65536 (0 : Nat)) 23).headD []).getD 2 0 +
        256 * ((chunk_message (List.replicate 65536 (0 : Nat)) 23).headD []).getD 3 0 =
      (List.replicate 65536 (0 : Nat)).length % 65536 :=
  ⟨by rw [List.length_replicate]; omega,
    (chunk_first_length_truncated (List.replicate 65536 0) 23
      (by rw [List.length_replicate]; omega) (by norm_num)).1⟩

/-! ## Message protocol (src/desktop/src/bluetooth/protocol.rs)

The cryptographic primitives (AES-256-GCM with a random nonce, the
truncated SHA-256 keyed checksum; src/desktop/src/crypto/mod.rs) are
modelled as abstract function fields of the context: the claims about this
layer concern which payload the protocol feeds to them and in which order,
not the ciphers themselves. -/

/-- Protocol version constant, from `PROTOCOL_VERSION` in protocol.rs. -/
def PROTOCOL_VERSION : Nat := 1

/-- Message types supported by the protocol, from `MessageType`. -/
inductive MessageType
  | Text
  | Command
  | Heartbeat
  | Ack
  | PairReq
  | PairAck
  deriving Repr, DecidableEq, Fintype

/-- Wire string of a message type, from `MessageType::as_str`. -/
def MessageType.as_str : MessageType → String
  | .Text => "TEXT"
  | .Command => "COMMAND"
  | .Heartbeat => "HEARTBEAT"
  | .Ack => "ACK"
  | .PairReq => "PAIR_REQ"
  | .PairAck => "PAIR_ACK"

/-- Cryptographic context for a paired session (crypto/mod.rs
`CryptoContext`), with the primitives as abstract functions of the derived
key: `encryptF` models `encrypt` (for one fixed nonce draw), `decryptF`
models `decrypt`, and `checksumF` models the keyed truncated-SHA-256
`checksum` over (version, type string, payload, timestamp). -/
structure CryptoContext where
  encryptF : String → Except String String
  decryptF : String → Except String String
  checksumF : Nat → String → String → Nat → String

/-- Checksum verification, from `CryptoContext::verify_checksum`: recompute
and compare for equality. -/
def CryptoContext.verify_checksum (ctx : CryptoContext) (version : Nat)
    (msg_type payload : String) (timestamp : Nat) (expected : String) : Bool :=
  ctx.checksumF version msg_type payload timestamp == expected

/-- Protocol message structure, from `Message`. -/
structure Message where
  version : Nat
  message_type : MessageType
  payload : String
  timestamp : Nat
  checksum : String
  deriving Repr, DecidableEq

/-- Create a new message, from `Message::new`; the wall-clock timestamp is
passed explicitly. -/
def Message.new (message_type : MessageType) (payload : String) (now : Nat) :
    Message :=
  { version := PROTOCOL_VERSION, message_type := message_type,
    payload := payload, timestamp := now, checksum := "" }

/-- Create an ACK message for a given timestamp, from `Message::ack`. -/
def Message.ack (original_timestamp now : Nat) : Message :=
  Message.new .Ack (toString original_timestamp) now

/-- Sensitive message types whose payload is encrypted, matching the
`matches!` patterns in `sign_and_encrypt` and `verify_and_decrypt`. -/
def sensitiveType : MessageType → Bool
  | .Text | .Command | .PairReq | .PairAck => true
  | .Heartbeat | .Ack => false

/-- Sign the message, from `Message::sign`. -/
def Message.sign (m : Message) (ctx : CryptoContext) : Message :=
  { m with
      checksum := ctx.checksumF m.version m.message_type.as_str m.payload m.timestamp }

/-- Sign and optionally encrypt the payload, from `Message::sign_and_encrypt`:
sensitive payloads are replaced by their encryption first, then the
checksum is always computed (over the payload as it now stands). The pair
returns the message as mutated in place together with the Rust `Result`. -/
def Message.sign_and_encrypt (m : Message) (ctx : CryptoContext) :
    Message × Except String Unit :=
  if sensitiveType m.message_type then
    match ctx.encryptF m.payload with
    | .ok c => ((({ m with payload := c }) : Message).sign ctx, .ok ())
    | .error e => (m, .error e)
  else
    (m.sign ctx, .ok ())

/-- Verify the message checksum, from `Message::verify`. -/
def Message.verify (m : Message) (ctx : CryptoContext) : Bool :=
  ctx.verify_checksum m.version m.message_type.as_str m.payload m.timestamp m.checksum

/-- Verify and decrypt, from `Message::verify_and_decrypt`: fail (leaving
the message untouched) when the checksum mismatches; only then decrypt the
payload in place for sensitive types. -/
def Message.verify_and_decrypt (m : Message) (ctx : CryptoContext) :
    Message × Except String Unit :=
  if ¬ m.verify ctx then
    (m, .error "Checksum verification failed")
  else if sensitiveType m.message_type then
    match ctx.decryptF m.payload with
    | .ok p => ({ m with payload := p }, .ok ())
    | .error e => (m, .error e)
  else
    (m, .ok ())

/-- Claim C3 counterexample: the codec has no WORD message type at all, so
the claimed sensitive set TEXT, WORD, COMMAND, PAIR_REQ, PAIR_ACK does not
match the code (which encrypts exactly TEXT, COMMAND, PAIR_REQ, PAIR_ACK). -/
theorem sensitive_word_cex :
    (¬ ∃ t : MessageType, t.as_str = "WORD") ∧
    (∀ t : MessageType, sensitiveType t = true ↔
      t.as_str = "TEXT" ∨ t.as_str = "COMMAND" ∨ t.as_str = "PAIR_REQ" ∨
        t.as_str = "PAIR_ACK") := by
  constructor
  · decide
  · decide

/-- Claim C3 (amended): `sign_and_encrypt` replaces the payload with its
encryption exactly for the sensitive types TEXT, COMMAND, PAIR_REQ and
PAIR_ACK, and computes the checksum afterwards so that it covers the
ciphertext; HEARTBEAT and ACK payloads are never encrypted. -/
theorem sign_and_encrypt_spec (ctx : CryptoContext) (m : Message) :
    (∀ c, sensitiveType m.message_type = true → ctx.encryptF m.payload = .ok c →
      m.sign_and_encrypt ctx =
        ({ m with
            payload := c,
            checksum := ctx.checksumF m.version m.message_type.as_str c m.timestamp },
          Except.ok ())) ∧
    (sensitiveType m.message_type = false →
      m.sign_and_encrypt ctx =
        ({ m with
            checksum := ctx.checksumF m.version m.message_type.as_str m.payload
              m.timestamp },
          Except.ok ())) ∧
    sensitiveType .Text = true ∧ sensitiveType .Command = true ∧
    sensitiveType .PairReq = true ∧ sensitiveType .PairAck = true ∧
    sensitiveType .Heartbeat = false ∧ sensitiveType .Ack = false := by
  refine ⟨?_, ?_, rfl, rfl, rfl, rfl, rfl, rfl⟩
  · intro c hs he
    rw [Message.sign_and_encrypt, if_pos hs, he]
    rfl
  · intro hs
    rw [Message.sign_and_encrypt, if_neg (by rw [hs]; exact Bool.false_ne_true)]
    rfl

/-- A concrete crypto context used by witnesses: encryption and decryption
tag the payload, the checksum concatenates its inputs. -/
def ctxExample : CryptoContext where
  encryptF s := .ok (String.append "enc:" s)
  decryptF s := .ok (String.append "dec:" s)
  checksumF v t p ts :=
    String.intercalate "|" [toString v, t, p, toString ts]

/-- Claim C3 witness: the amended statement evaluated on a concrete TEXT
message. -/
theorem sign_and_encrypt_spec_witness :
    sensitiveType (Message.new .Text "hi" 5).message_type = true ∧
    ctxExample.encryptF (Message.new .Text "hi" 5).payload = .ok "enc:hi" ∧
    (Message.new .Text "hi" 5).sign_and_encrypt ctxExample =
      ({ Message.new .Text "hi" 5 with
          payload := "enc:hi",
          checksum := "1|TEXT|enc:hi|5" },
        Except.ok ()) :=
  ⟨rfl, rfl,
    (sign_and_encrypt_spec ctxExample (Message.new .Text "hi" 5)).1 "enc:hi" rfl rfl⟩

/-- Claim C4: `verify_and_decrypt` recomputes the checksum over the message
exactly as received; on mismatch it fails with the integrity error and the
message (in particular its payload) is unchanged; only when the checksum
verifies is the payload of a sensitive message replaced by its decryption,
while non-sensitive payloads are left alone. -/
theorem verify_and_decrypt_spec (ctx : CryptoContext) (m : Message) :
    (m.verify ctx =
      (ctx.checksumF m.version m.message_type.as_str m.payload m.timestamp ==
        m.checksum)) ∧
    (m.verify ctx = false →
      m.verify_and_decrypt ctx = (m, Except.error "Checksum verification failed")) ∧
    (m.verify ctx = true → sensitiveType m.message_type = true →
      ∀ p, ctx.decryptF m.payload = .ok p →
        m.verify_and_decrypt ctx = ({ m with payload := p }, Except.ok ())) ∧
    (m.verify ctx = true → sensitiveType m.message_type = false →
      m.verify_and_decrypt ctx = (m, Except.ok ())) := by
  refine ⟨rfl, ?_, ?_, ?_⟩
  · intro hv
    rw [Message.verify_and_decrypt, if_pos (by rw [hv]; exact Bool.false_ne_true)]
  · intro hv hs p hd
    rw [Message.verify_and_decrypt, if_neg (by rw [hv]; exact not_not_intro rfl),
      if_pos hs, hd]
  · intro hv hs
    rw [Message.verify_and_decrypt, if_neg (by rw [hv]; exact not_not_intro rfl),
      if_neg (by rw [hs]; exact Bool.false_ne_true)]

/-- Claim C4 witness: a tampered concrete message fails with the integrity
error and is returned unchanged. -/
theorem verify_and_decrypt_spec_witness :
    ({ version := 1, message_type := .Text, payload := "enc:hi", timestamp := 5,
        checksum := "bogus" } : Message).verify ctxExample = false ∧
    ({ version := 1, message_type := .Text, payload := "enc:hi", timestamp := 5,
        checksum := "bogus" } : Message).verify_and_decrypt ctxExample =
      ({ version := 1, message_type := .Text, payload := "enc:hi", timestamp := 5,
          checksum := "bogus" }, Except.error "Checksum verification failed") :=
  ⟨by decide,
    (verify_and_decrypt_spec ctxExample
      { version := 1, message_type := .Text, payload := "enc:hi", timestamp := 5,
        checksum := "bogus" }).2.1 (by decide)⟩

/-- Claim C8 counterexample: the protocol version constant is 1, not 3, and
a freshly constructed message carries version 1, not 3. -/
theorem protocol_version_cex :
    PROTOCOL_VERSION ≠ 3 ∧ (Message.new .Text "x" 0).version ≠ 3 := by
  constructor
  · decide
  · decide

/-- Claim C8 (amended): the protocol version constant equals 1, and every
freshly constructed message carries version 1 in its `v` field. -/
theorem protocol_version_is_one :
    PROTOCOL_VERSION = 1 ∧
    ∀ (mt : MessageType) (p : String) (now : Nat),
      (Message.new mt p now).version = 1 :=
  ⟨rfl, fun _ _ _ => rfl⟩

/-! ## Connection handling (src/desktop/src/bluetooth/connection.rs and
gatt_server.rs)

Events and responses are modelled as the lists of `ConnectionEvent`s sent
on the event channel and of `Message`s handed to the response sender, in
order. -/

/-- State of a connection, from `ConnectionState` (identical in
connection.rs and gatt_server.rs). -/
inductive ConnectionState
  | AwaitingPair
  | Authenticated
  | Disconnected
  deriving Repr, DecidableEq

/-- Events emitted by a connection, from `ConnectionEvent` (the gatt_server
variant also carries an optional device name on `PairRequested`). -/
inductive ConnectionEvent
  | TextReceived (s : String)
  | CommandReceived (s : String)
  | Connected (device_name : String)
  | Disconnected
  | PairRequested (device_id : String) (device_name : Option String)
  | ErrorEvent (s : String)
  deriving Repr, DecidableEq

/-- Handler for TEXT messages, from `ConnectionHandler::handle_text_static`:
drop silently unless authenticated; verify and decrypt when a crypto
context exists; emit the event and answer with a (signed) ACK. -/
def handle_text_static (m : Message) (state : ConnectionState)
    (crypto : Option CryptoContext) (now : Nat) :
    List ConnectionEvent × Except String (Option Message) :=
  if state ≠ ConnectionState.Authenticated then ([], .ok none)
  else
    match crypto with
    | some ctx =>
      match m.verify_and_decrypt ctx with
      | (m1, .ok ()) =>
        ([.TextReceived m1.payload],
          .ok (some ((Message.ack m1.timestamp now).sign ctx)))
      | (_, .error e) => ([], .error e)
    | none =>
      ([.TextReceived m.payload], .ok (some (Message.ack m.timestamp now)))

/-- Handler for COMMAND messages, from
`ConnectionHandler::handle_command_static` (same shape as TEXT). -/
def handle_command_static (m : Message) (state : ConnectionState)
    (crypto : Option CryptoContext) (now : Nat) :
    List ConnectionEvent × Except String (Option Message) :=
  if state ≠ ConnectionState.Authenticated then ([], .ok none)
  else
    match crypto with
    | some ctx =>
      match m.verify_and_decrypt ctx with
      | (m1, .ok ()) =>
        ([.CommandReceived m1.payload],
          .ok (some ((Message.ack m1.timestamp now).sign ctx)))
      | (_, .error e) => ([], .error e)
    | none =>
      ([.CommandReceived m.payload], .ok (some (Message.ack m.timestamp now)))

/-- BLE status codes, from `StatusCode` in ble_constants.rs. -/
inductive StatusCode
  | Idle
  | AwaitingPairing
  | Paired
  | Busy
  | ErrorCode
  deriving Repr, DecidableEq

/-- Pending pairing record, from `PendingPairing` in gatt_server.rs; the
ECDH keypair is held abstractly. -/
structure PendingPairing where
  android_device_id : String
  android_device_name : Option String
  android_public_key : String
  desktop_keypair : String

/-- Shared state of the GATT server, from `ServerState` in gatt_server.rs. -/
structure ServerState where
  reassembler : MessageReassembler
  crypto : Option CryptoContext
  device_id : Option String
  state : ConnectionState
  negotiated_mtu : Nat
  status_code : StatusCode
  pending_pairing : Option PendingPairing

/-- The verification stage of `GattServer::handle_command_write`: when a
crypto context exists, TEXT and COMMAND messages are verified and
decrypted; a failure drops the message (`none`). -/
def gattVerifyStage (st : ServerState) (m : Message) : Option Message :=
  match st.crypto with
  | some ctx =>
    if m.message_type = .Text ∨ m.message_type = .Command then
      match m.verify_and_decrypt ctx with
      | (m1, .ok ()) => some m1
      | (_, .error _) => none
    else some m
  | none => some m

/-- The dispatch stage of `GattServer::handle_command_write` on a parsed
(and, where applicable, verified) message: returns the new server state,
the events emitted and the messages handed to `send_response_internal`.
The PAIR_REQ branch (which generates a fresh keypair and reads a public
key from the payload) is abstracted into the `pairReqBranch` argument; the
claims proved here never reach it. -/
def gattDispatch (st : ServerState) (m : Message) (now : Nat)
    (pairReqBranch : ServerState → Message →
      ServerState × List ConnectionEvent × List Message) :
    ServerState × List ConnectionEvent × List Message :=
  match gattVerifyStage st m with
  | none => (st, [], [])
  | some m1 =>
    match m1.message_type with
    | .PairReq => pairReqBranch st m1
    | .Text =>
      if st.state ≠ ConnectionState.Authenticated then (st, [], [])
      else (st, [.TextReceived m1.payload], [Message.ack m1.timestamp now])
    | .Command =>
      if st.state ≠ ConnectionState.Authenticated then (st, [], [])
      else (st, [.CommandReceived m1.payload], [Message.ack m1.timestamp now])
    | .Heartbeat => (st, [], [Message.ack m1.timestamp now])
    | _ => (st, [], [])

/-- Verification and decryption never change the message type. -/
lemma verify_and_decrypt_preserves_type (ctx : CryptoContext) (m : Message) :
    ((m.verify_and_decrypt ctx).1).message_type = m.message_type := by
  rw [Message.verify_and_decrypt]
  by_cases hv : ¬ m.verify ctx
  · rw [if_pos hv]
  · rw [if_neg hv]
    by_cases hs : sensitiveType m.message_type = true
    · rw [if_pos hs]
      cases hd : ctx.decryptF m.payload with
      | ok p => simp only []
      | error e => simp only []
    · rw [if_neg hs]

/-- The verification stage never changes the message type either. -/
lemma gattVerifyStage_preserves_type (st : ServerState) (m m1 : Message)
    (h : gattVerifyStage st m = some m1) :
    m1.message_type = m.message_type := by
  rw [gattVerifyStage] at h
  split at h
  · rename_i ctx hctx
    split at h
    · split at h
      · rename_i m2 heq
        injection h with h
        rw [← h]
        have hpres := verify_and_decrypt_preserves_type ctx m
        rw [heq] at hpres
        exact hpres
      · exact absurd h (by simp)
    · injection h with h
      rw [← h]
  · injection h with h
    rw [← h]

/-- Claim C5: in every connection state other than Authenticated, a
received TEXT or COMMAND message is dropped by both the RFCOMM connection
handler and the GATT server dispatch: no event is emitted, no response is
sent, and the state (the whole server state, so nothing is queued either)
is unchanged. -/
theorem pre_auth_messages_dropped (m : Message) (state : ConnectionState)
    (crypto : Option CryptoContext) (now : Nat)
    (hstate : state ≠ ConnectionState.Authenticated) :
    handle_text_static m state crypto now = ([], .ok none) ∧
    handle_command_static m state crypto now = ([], .ok none) ∧
    ∀ (st : ServerState) (pairReqBranch : ServerState → Message →
        ServerState × List ConnectionEvent × List Message),
      st.state = state →
      m.message_type = MessageType.Text ∨ m.message_type = MessageType.Command →
      gattDispatch st m now pairReqBranch = (st, [], []) := by
  refine ⟨?_, ?_, ?_⟩
  · rw [handle_text_static.eq_def, if_pos hstate]
  · rw [handle_command_static.eq_def, if_pos hstate]
  · intro st prb hst hty
    have hne : st.state ≠ ConnectionState.Authenticated := by
      rw [hst]; exact hstate
    cases hsplit : gattVerifyStage st m with
    | none => simp only [gattDispatch, hsplit]
    | some m1 =>
      have htype := gattVerifyStage_preserves_type st m m1 hsplit
      rcases hty with hty | hty <;>
        · simp only [gattDispatch, hsplit, htype, hty]
          rw [if_pos hne]

/-- An example un-authenticated GATT server state, used by witnesses. -/
def serverStateExample : ServerState where
  reassembler := MessageReassembler.new
  crypto := none
  device_id := none
  state := ConnectionState.AwaitingPair
  negotiated_mtu := 23
  status_code := StatusCode.Idle
  pending_pairing := none

/-- Claim C5 witness: concrete run with an AwaitingPair GATT server state
and RFCOMM handler, a TEXT message, and no crypto context. -/
theorem pre_auth_messages_dropped_witness :
    (ConnectionState.AwaitingPair ≠ ConnectionState.Authenticated) ∧
    handle_text_static (Message.new .Text "x" 0) ConnectionState.AwaitingPair
      none 0 = ([], .ok none) ∧
    gattDispatch serverStateExample (Message.new .Text "x" 0) 0
      (fun st _ => (st, [], [])) = (serverStateExample, [], []) := by
  have h := pre_auth_messages_dropped (Message.new .Text "x" 0)
    ConnectionState.AwaitingPair none 0
    (by intro h; exact ConnectionState.noConfusion h)
  exact ⟨by intro h2; exact ConnectionState.noConfusion h2, h.1,
    h.2.2 serverStateExample _ rfl (Or.inl rfl)⟩

/-! ## String helpers shared by the command matcher and the phrase store

Rust string primitives (`to_lowercase`, `trim`, `split_whitespace`,
`trim_end_matches`) modelled over the character list of the string; the
phrases involved are ASCII, where these agree with the Rust behaviour. -/

/-- Lowercasing, modelling `str::to_lowercase`. -/
def toLowerStr (s : String) : String :=
  String.mk (s.toList.map Char.toLower)

/-- Uppercasing, modelling `str::to_uppercase`. -/
def toUpperStr (s : String) : String :=
  String.mk (s.toList.map Char.toUpper)

/-- Whitespace trimming at both ends, modelling `str::trim`. -/
def trimStr (s : String) : String :=
  String.mk
    (((s.toList.dropWhile Char.isWhitespace).reverse.dropWhile
      Char.isWhitespace).reverse)

/-- Accumulator loop splitting a character list into whitespace-separated
words. -/
def wordsAux : List Char → List Char → List (List Char)
  | [], acc => if acc.isEmpty then [] else [acc.reverse]
  | c :: cs, acc =>
    if c.isWhitespace then
      if acc.isEmpty then wordsAux cs [] else acc.reverse :: wordsAux cs []
    else
      wordsAux cs (c :: acc)

/-- Splitting into words, modelling `str::split_whitespace` (collected into
a vector). -/
def splitWhitespace (s : String) : List String :=
  (wordsAux s.toList []).map String.mk

/-! ## Word look-ahead buffer (src/desktop/src/commands/word_buffer.rs) -/

/-- Result of processing a word, from `ProcessedItem`. -/
inductive ProcessedItem
  | Text (s : String)
  | Command (cmd : String)
  deriving Repr, DecidableEq

/-- A word pending for look-ahead, from `PendingWord`; the `Instant` is a
natural-number time. -/
structure PendingWord where
  word : String
  received_at : Nat
  deriving Repr, DecidableEq

/-- The word buffer state, from `WordBuffer`. -/
structure WordBuffer where
  current_session : Option String
  pending : Option PendingWord
  deriving Repr, DecidableEq

/-- Fresh buffer, from `WordBuffer::new`. -/
def WordBuffer.new : WordBuffer :=
  { current_session := none, pending := none }

/-- Complete reset, from `WordBuffer::reset`. -/
def WordBuffer.reset (_wb : WordBuffer) : WordBuffer :=
  { current_session := none, pending := none }

/-- Session switch, from `WordBuffer::reset_for_session`: remember the new
session and discard any pending word. -/
def WordBuffer.reset_for_session (wb : WordBuffer) (session : String) :
    WordBuffer :=
  { wb with current_session := some session, pending := none }

/-- The tail of `process_single_word` once no pending word remains: buffer
a potential two-word starter, else emit a single-word command, else emit
the word as text with a trailing space. -/
def WordBuffer.idleStep (wb : WordBuffer) (word : String) (now : Nat)
    (command_matcher : String → Option String)
    (could_start_two_word : String → Bool) :
    WordBuffer × List ProcessedItem :=
  if could_start_two_word word then
    ({ wb with pending := some { word := word, received_at := now } }, [])
  else
    match command_matcher word with
    | some cmd => (wb, [.Command cmd])
    | none => (wb, [.Text (word ++ " ")])

/-- Process a single word, from `WordBuffer::process_single_word`: the
pending word is always taken first; a two-word match emits one command,
otherwise the pending word is flushed as text and the new word is handled
as from idle. -/
def WordBuffer.process_single_word (wb : WordBuffer) (word : String) (now : Nat)
    (command_matcher : String → Option String)
    (two_word_matcher : String → String → Option String)
    (could_start_two_word : String → Bool) :
    WordBuffer × List ProcessedItem :=
  match wb.pending with
  | some pending =>
    match two_word_matcher pending.word word with
    | some cmd => ({ wb with pending := none }, [.Command cmd])
    | none =>
      let step := WordBuffer.idleStep { wb with pending := none } word now
        command_matcher could_start_two_word
      (step.1, .Text (pending.word ++ " ") :: step.2)
  | none =>
    wb.idleStep word now command_matcher could_start_two_word

/-- Process an incoming word, from `WordBuffer::process_word`: a session
change resets (discarding any pending word) before the word is processed. -/
def WordBuffer.process_word (wb : WordBuffer) (word session : String) (now : Nat)
    (command_matcher : String → Option String)
    (two_word_matcher : String → String → Option String)
    (could_start_two_word : String → Bool) :
    WordBuffer × List ProcessedItem :=
  let wb1 :=
    if wb.current_session ≠ some session then wb.reset_for_session session else wb
  wb1.process_single_word word now command_matcher two_word_matcher
    could_start_two_word

/-- Look-ahead timeout in milliseconds, from `LOOK_AHEAD_TIMEOUT`. -/
def LOOK_AHEAD_TIMEOUT : Nat := 100

/-- Timeout flush, from `WordBuffer::flush_pending`. -/
def WordBuffer.flush_pending (wb : WordBuffer) (now : Nat)
    (command_matcher : String → Option String) :
    WordBuffer × List ProcessedItem :=
  match wb.pending with
  | some pending =>
    if LOOK_AHEAD_TIMEOUT ≤ now - pending.received_at then
      match command_matcher pending.word with
      | some cmd => ({ wb with pending := none }, [.Command cmd])
      | none => ({ wb with pending := none }, [.Text (pending.word ++ " ")])
    else (wb, [])
  | none => (wb, [])

/-- Number of words buffered for look-ahead. -/
def pendingCount (wb : WordBuffer) : Nat :=
  match wb.pending with
  | none => 0
  | some _ => 1

/-- No buffer state ever holds more than one pending word: the state keeps
at most an optional single word. -/
lemma pendingCount_le_one (wb : WordBuffer) : pendingCount wb ≤ 1 := by
  rw [pendingCount]
  cases wb.pending
  · exact Nat.zero_le 1
  · exact Nat.le_refl 1

/-- Claim C6: at most one word is ever buffered (after any processing or
flushing step), and a word arriving under a different session identifier is
processed from a state whose pending word has been unconditionally
discarded. -/
theorem word_buffer_invariant (wb : WordBuffer) (word session : String)
    (now : Nat) (command_matcher : String → Option String)
    (two_word_matcher : String → String → Option String)
    (could_start_two_word : String → Bool)
    (hsession : wb.current_session ≠ some session) :
    pendingCount (wb.process_word word session now command_matcher
      two_word_matcher could_start_two_word).1 ≤ 1 ∧
    pendingCount (wb.flush_pending now command_matcher).1 ≤ 1 ∧
    wb.process_word word session now command_matcher two_word_matcher
        could_start_two_word =
      WordBuffer.process_single_word
        { current_session := some session, pending := none } word now
        command_matcher two_word_matcher could_start_two_word := by
  refine ⟨pendingCount_le_one _, pendingCount_le_one _, ?_⟩
  rw [WordBuffer.process_word]
  simp only [if_pos hsession]
  rfl

/-- Claim C6 witness: a buffered word under session s1 followed by a word
under session s2. -/
theorem word_buffer_invariant_witness :
    (({ current_session := some "s1",
        pending := some { word := "select", received_at := 0 } } :
          WordBuffer).current_session ≠ some "s2") ∧
    ({ current_session := some "s1",
        pending := some { word := "select", received_at := 0 } } :
          WordBuffer).process_word "hello" "s2" 7 (fun _ => none)
        (fun _ _ => none) (fun _ => false) =
      WordBuffer.process_single_word
        { current_session := some "s2", pending := none } "hello" 7
        (fun _ => none) (fun _ _ => none) (fun _ => false) :=
  ⟨by decide,
    (word_buffer_invariant _ "hello" "s2" 7 (fun _ => none) (fun _ _ => none)
      (fun _ => false) (by decide)).2.2⟩

/-! ## Voice command store (src/desktop/src/storage/voice_commands.rs)

The store's `HashMap<String, VoiceCommandMapping>` keyed by command code is
modelled as an association list with unique keys; insertion replaces any
entry with the same key. -/

/-- A single voice command mapping, from `VoiceCommandMapping`; the
creation time is a natural number. -/
structure VoiceCommandMapping where
  phrase : String
  command : String
  created_at : Nat
  deriving Repr, DecidableEq

/-- The custom mappings held by a `VoiceCommandStore`, indexed by command
code. -/
def Mappings : Type := List (String × VoiceCommandMapping)

/-- Default phrases for built-in commands, from `DEFAULT_PHRASES`. -/
def DEFAULT_PHRASES : List (String × String) :=
  [("ENTER", "enter"), ("SELECT_ALL", "select all"), ("COPY", "copy"),
   ("PASTE", "paste"), ("CUT", "cut"), ("CANCEL", "cancel")]

/-- Key membership in the mapping table, modelling `HashMap::contains_key`. -/
def containsKey (mappings : Mappings) (command : String) : Bool :=
  (mappings : List (String × VoiceCommandMapping)).any (fun kv => kv.1 == command)

/-- Match a spoken phrase to a command code, from
`VoiceCommandStore::match_phrase`: custom mappings first (stored phrase
trimmed and lowercased), then default phrases for commands without a
custom mapping. -/
def match_phrase (mappings : Mappings) (spoken : String) : Option String :=
  let spoken_lower := toLowerStr (trimStr spoken)
  match (mappings : List (String × VoiceCommandMapping)).find?
      (fun kv => toLowerStr (trimStr kv.2.phrase) == spoken_lower) with
  | some kv => some kv.1
  | none =>
    match DEFAULT_PHRASES.find?
        (fun cd => !containsKey mappings cd.1 && cd.2 == spoken_lower) with
    | some cd => some cd.1
    | none => none

/-- First word of a custom two-word phrase check, from
`VoiceCommandStore::could_start_two_word_command`. -/
def store_could_start_two_word (mappings : Mappings) (word : String) : Bool :=
  let word_lower := toLowerStr word
  (mappings : List (String × VoiceCommandMapping)).any (fun kv =>
    let phrase := toLowerStr (trimStr kv.2.phrase)
    phrase.toList.contains ' ' &&
      ((splitWhitespace phrase).headD "" == word_lower))

/-- Normalize a phrase to at most two lowercase words, from
`normalize_phrase` split into the word list and the shape match. -/
def normalize_words : List String → String
  | [] => ""
  | [w] => toLowerStr w
  | [w1, w2] => toLowerStr w1 ++ " " ++ toLowerStr w2
  | ws =>
    let last_two := ws.drop (ws.length - 2)
    toLowerStr (last_two.getD 0 "") ++ " " ++ toLowerStr (last_two.getD 1 "")

/-- Normalize a phrase, from `normalize_phrase` in voice_commands.rs. -/
def normalize_phrase (phrase : String) : String :=
  normalize_words (splitWhitespace phrase)

/-- Map insertion, modelling `HashMap::insert` on the keyed table. -/
def insertMapping (mappings : Mappings) (key : String)
    (v : VoiceCommandMapping) : Mappings :=
  ((key, v) :: (mappings : List (String × VoiceCommandMapping)).filter
    (fun kv => kv.1 ≠ key) : List (String × VoiceCommandMapping))

/-- Set a custom phrase, from `VoiceCommandStore::set_phrase`: normalize to
at most two lowercase words, reject an empty result before touching the
stored mappings, otherwise store the mapping under the uppercased command
code (the on-disk save is outside this model). -/
def set_phrase (mappings : Mappings) (command phrase : String) (now : Nat) :
    Mappings × Except String Unit :=
  let command_upper := toUpperStr command
  let final_phrase := normalize_phrase phrase
  if final_phrase == "" then
    (mappings, .error "Custom phrase cannot be empty")
  else
    (insertMapping mappings command_upper
      { phrase := final_phrase, command := command_upper, created_at := now },
      .ok ())

/-! ## Combined matcher (src/desktop/src/commands/matcher.rs) -/

/-- Default two-word command phrases, from `DEFAULT_TWO_WORD_PHRASES`. -/
def DEFAULT_TWO_WORD_PHRASES : List (String × String) :=
  [("select all", "SELECT_ALL"), ("new line", "ENTER"), ("go back", "BACKSPACE")]

/-- Trailing punctuation marks stripped when matching. -/
def MATCH_PUNCT : List Char := ['.', ',', '!', '?', ':', ';']

/-- Word normalization for matching, from
`CombinedMatcher::normalize_for_matching`: trim, strip trailing
punctuation, lowercase. -/
def normalize_for_matching (word : String) : String :=
  toLowerStr
    (String.mk
      (((trimStr word).toList.reverse.dropWhile (fun c => MATCH_PUNCT.contains c)).reverse))

/-- Single-word command matching, from `CombinedMatcher::match_single_word`. -/
def match_single_word (mappings : Mappings) (word : String) : Option String :=
  match_phrase mappings (normalize_for_matching word)

/-- Two-word command matching, from `CombinedMatcher::match_two_words`:
custom phrases first, then the built-in two-word table. -/
def match_two_words (mappings : Mappings) (word1 word2 : String) :
    Option String :=
  let phrase := normalize_for_matching word1 ++ " " ++ normalize_for_matching word2
  match match_phrase mappings phrase with
  | some cmd => some cmd
  | none =>
    match DEFAULT_TWO_WORD_PHRASES.find? (fun pc => phrase == pc.1) with
    | some pc => some pc.2
    | none => none

/-- Look-ahead predicate, from
`CombinedMatcher::could_start_two_word_command`: the normalized word starts
a built-in two-word phrase, or a custom two-word phrase. -/
def could_start_two_word_command (mappings : Mappings) (word : String) : Bool :=
  let normalized := normalize_for_matching word
  DEFAULT_TWO_WORD_PHRASES.any (fun pc =>
    normalized.toList.isPrefixOf pc.1.toList && pc.1.toList.contains ' ' &&
      ((splitWhitespace pc.1).headD "" == normalized)) ||
  store_could_start_two_word mappings normalized

/-- The empty custom mapping table (a store holding only defaults). -/
def noCustomMappings : Mappings := ([] : List (String × VoiceCommandMapping))

set_option maxHeartbeats 4000000 in
/-- Claim C7: with the default mappings, "select" is buffered with no
emission; a following "all" in the same session emits exactly
Command(SELECT_ALL); a following "something" instead emits exactly
Text("select ") then Text("something "), in that order. -/
theorem two_word_look_ahead (t1 t2 t3 : Nat) :
    WordBuffer.process_word WordBuffer.new "select" "s1" t1
        (match_single_word noCustomMappings)
        (match_two_words noCustomMappings)
        (could_start_two_word_command noCustomMappings) =
      ({ current_session := some "s1",
          pending := some { word := "select", received_at := t1 } }, []) ∧
    (WordBuffer.process_word
        { current_session := some "s1",
          pending := some { word := "select", received_at := t1 } }
        "all" "s1" t2
        (match_single_word noCustomMappings)
        (match_two_words noCustomMappings)
        (could_start_two_word_command noCustomMappings)) =
      ({ current_session := some "s1", pending := none },
        [ProcessedItem.Command "SELECT_ALL"]) ∧
    (WordBuffer.process_word
        { current_session := some "s1",
          pending := some { word := "select", received_at := t1 } }
        "something" "s1" t3
        (match_single_word noCustomMappings)
        (match_two_words noCustomMappings)
        (could_start_two_word_command noCustomMappings)) =
      ({ current_session := some "s1", pending := none },
        [ProcessedItem.Text "select ", ProcessedItem.Text "something "]) := by
  refine ⟨rfl, rfl, rfl⟩

/-! ### Lemmas about phrase normalization (claim C10) -/

/-- Words joined by single spaces (the shape `normalize_phrase` produces). -/
def joinWords : List String → String
  | [] => ""
  | [w] => w
  | w :: ws => w ++ " " ++ joinWords ws

/-- The word-splitting loop returns the empty list exactly when the
accumulator is empty and every remaining character is whitespace. -/
lemma wordsAux_nil_iff :
    ∀ (cs acc : List Char),
      wordsAux cs acc = [] ↔ (acc = [] ∧ ∀ c ∈ cs, c.isWhitespace = true) := by
  intro cs
  induction cs with
  | nil =>
    intro acc
    rw [wordsAux]
    by_cases h : acc.isEmpty = true
    · rw [if_pos h]
      simp [List.isEmpty_iff.mp h]
    · rw [if_neg h]
      simp only [List.isEmpty_iff] at h
      simp [h]
  | cons c cs ih =>
    intro acc
    rw [wordsAux]
    by_cases hw : c.isWhitespace = true
    · rw [if_pos hw]
      by_cases ha : acc.isEmpty = true
      · rw [if_pos ha, ih []]
        simp [List.isEmpty_iff.mp ha, hw]
      · rw [if_neg ha]
        simp only [List.isEmpty_iff] at ha
        simp [ha]
    · rw [if_neg hw, ih (c :: acc)]
      simp [hw]

/-- Every word produced by the word-splitting loop is nonempty. -/
lemma wordsAux_mem_ne_nil :
    ∀ (cs acc : List Char), ∀ l ∈ wordsAux cs acc, l ≠ [] := by
  intro cs
  induction cs with
  | nil =>
    intro acc l hl
    rw [wordsAux] at hl
    by_cases h : acc.isEmpty = true
    · rw [if_pos h] at hl
      exact absurd hl (List.not_mem_nil l)
    · rw [if_neg h] at hl
      rw [List.mem_singleton] at hl
      subst hl
      simp only [List.isEmpty_iff] at h
      intro hnil
      rw [List.reverse_eq_nil_iff] at hnil
      exact h hnil
  | cons c cs ih =>
    intro acc l hl
    rw [wordsAux] at hl
    by_cases hw : c.isWhitespace = true
    · rw [if_pos hw] at hl
      by_cases ha : acc.isEmpty = true
      · rw [if_pos ha] at hl
        exact ih [] l hl
      · rw [if_neg ha] at hl
        rw [List.mem_cons] at hl
        rcases hl with hl | hl
        · subst hl
          simp only [List.isEmpty_iff] at ha
          intro hnil
          rw [List.reverse_eq_nil_iff] at hnil
          exact ha hnil
        · exact ih [] l hl
    · rw [if_neg hw] at hl
      exact ih (c :: acc) l hl

/-- Lowercasing a string yields the empty string only for the empty
string. -/
lemma toLowerStr_eq_nil_iff (s : String) : toLowerStr s = "" ↔ s.toList = [] := by
  rw [toLowerStr, show ("" : String) = String.mk [] from rfl]
  constructor
  · intro h
    injection h with h
    exact List.map_eq_nil_iff.mp h
  · intro h
    rw [h]
    rfl

/-- `normalize_phrase` yields the empty string exactly on all-whitespace
(or empty) input. -/
lemma normalize_phrase_eq_empty_iff (phrase : String) :
    normalize_phrase phrase = "" ↔
      phrase.toList.all Char.isWhitespace = true := by
  rw [normalize_phrase, splitWhitespace]
  rw [List.all_eq_true]
  cases hws : wordsAux phrase.toList [] with
  | nil =>
    rw [wordsAux_nil_iff] at hws
    simp only [List.map_nil, normalize_words]
    constructor
    · intro _ c hc
      exact hws.2 c hc
    · intro _
      trivial
  | cons w tl =>
    have hnl : ¬ (∀ c ∈ phrase.toList, c.isWhitespace = true) := by
      intro hall
      have : wordsAux phrase.toList [] = [] := (wordsAux_nil_iff _ _).mpr ⟨rfl, hall⟩
      rw [hws] at this
      exact List.noConfusion this
    have hwne : w ≠ [] := wordsAux_mem_ne_nil phrase.toList [] w
      (by rw [hws]; exact List.mem_cons_self w tl)
    constructor
    · intro hempty
      exfalso
      cases tl with
      | nil =>
        simp only [List.map_cons, List.map_nil, normalize_words] at hempty
        rw [toLowerStr_eq_nil_iff] at hempty
        exact hwne (by
          have : (String.mk w).toList = w := rfl
          rw [this] at hempty
          exact hempty)
      | cons w2 tl2 =>
        cases tl2 with
        | nil =>
          simp only [List.map_cons, List.map_nil, normalize_words] at hempty
          have hlen := congrArg String.length hempty
          rw [String.length_append, String.length_append,
            show (" " : String).length = 1 from rfl,
            show ("" : String).length = 0 from rfl] at hlen
          omega
        | cons w3 tl3 =>
          simp only [List.map_cons, normalize_words] at hempty
          have hlen := congrArg String.length hempty
          rw [String.length_append, String.length_append,
            show (" " : String).length = 1 from rfl,
            show ("" : String).length = 0 from rfl] at hlen
          omega
    · intro hall
      exact absurd (fun c hc => hall c hc) hnl

/-- `normalize_words` keeps exactly the last two (or fewer) words,
lowercased and joined by one space. -/
lemma normalize_words_eq (ws : List String) :
    normalize_words ws = joinWords ((ws.drop (ws.length - 2)).map toLowerStr) := by
  match ws with
  | [] => rfl
  | [w] => rfl
  | [w1, w2] => rfl
  | w1 :: w2 :: w3 :: tl =>
    have h2 : ((w1 :: w2 :: w3 :: tl).drop ((w1 :: w2 :: w3 :: tl).length - 2)).length
        = 2 := by
      rw [List.length_drop]
      simp only [List.length_cons]
      omega
    obtain ⟨a, b, hab⟩ : ∃ a b,
        (w1 :: w2 :: w3 :: tl).drop ((w1 :: w2 :: w3 :: tl).length - 2) = [a, b] := by
      cases hd : (w1 :: w2 :: w3 :: tl).drop ((w1 :: w2 :: w3 :: tl).length - 2) with
      | nil =>
        rw [hd] at h2
        exact absurd h2 (by simp)
      | cons a t1 =>
        cases t1 with
        | nil =>
          rw [hd] at h2
          exact absurd h2 (by simp)
        | cons b t2 =>
          cases t2 with
          | nil => exact ⟨a, b, rfl⟩
          | cons c t3 =>
            rw [hd] at h2
            exact absurd h2 (by simp)
    simp only [normalize_words, hab, List.getD_cons_zero, List.getD_cons_succ,
      List.map_cons, List.map_nil, joinWords]

/-- Claim C10: `set_phrase` rejects an empty or all-whitespace phrase with
an error and leaves the stored mappings unchanged; otherwise it stores,
under the uppercased command code, the phrase normalized to the last at
most two words, lowercased and space-joined. -/
theorem set_phrase_spec (mappings : Mappings) (command phrase : String)
    (now : Nat) :
    (phrase.toList.all Char.isWhitespace = true →
      set_phrase mappings command phrase now =
        (mappings, Except.error "Custom phrase cannot be empty")) ∧
    (phrase.toList.all Char.isWhitespace = false →
      set_phrase mappings command phrase now =
        (insertMapping mappings (toUpperStr command)
          { phrase := normalize_phrase phrase, command := toUpperStr command,
            created_at := now },
          Except.ok ())) ∧
    normalize_phrase phrase =
      joinWords
        (((splitWhitespace phrase).drop ((splitWhitespace phrase).length - 2)).map
          toLowerStr) := by
  refine ⟨?_, ?_, normalize_words_eq (splitWhitespace phrase)⟩
  · intro hws
    have hempty : normalize_phrase phrase = "" :=
      (normalize_phrase_eq_empty_iff phrase).mpr hws
    rw [set_phrase]
    simp only [hempty]
    rfl
  · intro hws
    have hne : ¬ normalize_phrase phrase = "" := by
      intro h
      rw [normalize_phrase_eq_empty_iff phrase] at h
      rw [h] at hws
      exact Bool.noConfusion hws
    rw [set_phrase]
    rw [if_neg (by
      intro hbeq
      exact hne (eq_of_beq hbeq))]

/-- Claim C10 witness: a three-word phrase keeps its last two words, and an
all-whitespace phrase is rejected. -/
theorem set_phrase_spec_witness :
    ("  ".toList.all Char.isWhitespace = true) ∧
    set_phrase noCustomMappings "enter" "  " 3 =
      (noCustomMappings, Except.error "Custom phrase cannot be empty") ∧
    ("please do Enter".toList.all Char.isWhitespace = false) ∧
    set_phrase noCustomMappings "enter" "please do Enter" 3 =
      (insertMapping noCustomMappings "ENTER"
        { phrase := normalize_phrase "please do Enter", command := "ENTER",
          created_at := 3 },
        Except.ok ()) ∧
    normalize_phrase "please do Enter" = "do enter" :=
  ⟨by decide,
    (set_phrase_spec noCustomMappings "enter" "  " 3).1 (by decide),
    by decide,
    (set_phrase_spec noCustomMappings "enter" "please do Enter" 3).2.1 (by decide),
    by decide⟩

end S2P
